import Mathlib

/-!
Verification of the FPGA bring-up/loader/console-bridge subsystem
(`tools/fpga/{utils,loader,term,main}.py`) of the M3 repository.

The Python code is shallowly embedded: Python strings become `List Char`,
Python unbounded integers become `Nat` (with `Int` where a value can go
negative), writes to hardware/memory become an explicit event trace, and
`sys.exit`/uncaught exceptions become an `Except.error` result that stops
the rest of the computation (mirroring process termination).
-/

set_option maxRecDepth 4000

/-- Embedding of Python `str.split(sep)` (single-character separator) over
`List Char`: splits on every occurrence, `"".split(sep) == [""]`. -/
def pySplit (sep : Char) : List Char → List (List Char)
  | [] => [[]]
  | c :: rest =>
    let r := pySplit sep rest
    if c = sep then [] :: r
    else (c :: r.headD []) :: r.tail

/-- Embedding of Python `os.path.basename` for POSIX paths: the part after
the last `/` (empty for a trailing slash), the whole string if no `/`. -/
def pyBasename (p : List Char) : List Char :=
  (pySplit '/' p).getLastD []

theorem pySplit_ne_nil (sep : Char) (s : List Char) : pySplit sep s ≠ [] := by
  cases s with
  | nil => simp [pySplit]
  | cons c rest =>
    simp only [pySplit]
    split <;> simp

/-- The endpoint configuration installed by `tile.tcu_set_ep`: the fields set
on a `MemEP` in `Loader._init_tile` (flags kept symbolic as read/write
booleans since `tcu.py` is external to the repository slice). -/
structure MemEpCfg where
  chip : Nat
  tile : Nat
  act : Nat
  read : Bool
  write : Bool
  addr : Nat
  size : Nat
deriving DecidableEq

/-- Observable actions of the loader/launcher: memory writes through the
DRAM handle, per-tile hardware operations, interconnect sends and the
side-effects of `main`. -/
inductive Event where
  | w64 (addr value : Nat)
  | wstr (addr : Nat) (s : List Char)
  | wfile (path : List Char) (content : List Nat) (addr : Nat)
  | welf (path : List Char) (off : Int)
  | tcuReset (tile : Nat)
  | enableTrace (tile : Nat)
  | setFeatures (tile : Nat) (priv : Nat) (vm : Bool) (ctxsw : Nat)
  | setEp (tile ep : Nat) (cfg : Option MemEpCfg)
  | start (tile : Nat)
  | rocketStart (tile : Nat)
  | stop (tile : Nat)
  | arqEnable (enabled : Bool)
  | writeReady
  | enterLoop
  | nocCounters (tile : Nat)
  | flitCounters (tile : Nat)
  | printLog (tile : Nat) (all : Bool)
  | printTrace (tile : Nat) (all : Bool)
  | send (chip tile ep : Nat) (data : List Char)
deriving DecidableEq

/-- Result of running a piece of the loader: the trace of events it emitted,
and either a value or the message of the `sys.exit`/uncaught exception that
terminated the process. -/
abbrev Res (α : Type) : Type := List Event × Except String α

/-- Sequencing: an abort stops the computation; otherwise traces concatenate. -/
def bindR {α β : Type} (x : Res α) (f : α → Res β) : Res β :=
  match x with
  | (evs, Except.error e) => (evs, Except.error e)
  | (evs, Except.ok a) => (evs ++ (f a).1, (f a).2)

def retR {α : Type} (a : α) : Res α := ([], Except.ok a)

def emit (e : Event) : Res Unit := ([e], Except.ok ())

def emitAll (es : List Event) : Res Unit := (es, Except.ok ())

def abortR {α : Type} (msg : String) : Res α := ([], Except.error msg)

@[simp] theorem bindR_ok {α β : Type} (evs : List Event) (a : α) (f : α → Res β) :
    bindR (evs, Except.ok a) f = (evs ++ (f a).1, (f a).2) := rfl

@[simp] theorem bindR_error {α β : Type} (evs : List Event) (e : String) (f : α → Res β) :
    bindR (evs, Except.error e) f = (evs, Except.error e) := rfl

/-! ## Constants from `loader.py` -/

def DRAM_SIZE : Nat := 2 * 1024 * 1024 * 1024
def DRAM_OFF : Nat := 0x10000000
def ENV : Nat := 0x10001000
def MEM_TILE : Nat := 8
def KENV_ADDR : Nat := 0
def KENV_SIZE : Nat := 4 * 1024
def SERIAL_ADDR : Nat := KENV_ADDR + KENV_SIZE
def SERIAL_SIZE : Nat := 4 * 1024
def PMP_ADDR : Nat := SERIAL_ADDR + SERIAL_SIZE

/-! ## `utils.py` -/

/-- `utils.write_u64(mod, addr, value)`: a 64-bit store through the handle. -/
def write_u64 (addr value : Nat) : Res Unit := emit (.w64 addr value)

/-- `utils.write_str(mod, string, addr)`: null-terminated string store. -/
def write_str (s : List Char) (addr : Nat) : Res Unit := emit (.wstr addr s)

/-- `utils.glob_addr(tile, offset) = (0x4000 + tile) << 49 | offset`. -/
def glob_addr (tile offset : Nat) : Nat := (0x4000 + tile) <<< 49 ||| offset

/-- Modelled from the spec: the inverse of the global-address encoding
(`decode` exists only in the spec's testable property, not in the code):
the tile is the value above bit 49 minus the `0x4000` tag, the offset the
low 49 bits. -/
def glob_decode (addr : Nat) : Nat × Nat := (addr >>> 49 - 0x4000, addr % 2 ^ 49)

/-- `utils.send_input(nocif, chip, tile, ep, data)`. -/
def send_input (chip tile ep : Nat) (data : List Char) : Res Unit :=
  emit (.send chip tile ep data)

/-! ## Arithmetic helper lemmas -/

theorem shiftLeft_or_eq_add (n x o : Nat) (h : o < 2 ^ n) :
    x <<< n ||| o = 2 ^ n * x + o := by
  apply Nat.eq_of_testBit_eq
  intro i
  rw [Nat.testBit_mul_pow_two_add _ h i]
  simp only [Nat.testBit_or, Nat.testBit_shiftLeft]
  by_cases hi : i < n
  · simp [hi, Nat.not_le.mpr hi]
  · have hn : n ≤ i := Nat.not_lt.mp hi
    have ho : o.testBit i = false := by
      apply Nat.testBit_lt_two_pow
      exact lt_of_lt_of_le h (Nat.pow_le_pow_right (by omega) hn)
    simp [hi, hn, ho]

theorem glob_addr_eq (tile offset : Nat) (h : offset < 2 ^ 49) :
    glob_addr tile offset = 2 ^ 49 * (0x4000 + tile) + offset :=
  shiftLeft_or_eq_add _ _ _ h

/-- C1 round-trip core. -/
theorem glob_decode_glob_addr (tile offset : Nat) (h : offset < 2 ^ 49) :
    glob_decode (glob_addr tile offset) = (tile, offset) := by
  rw [glob_addr_eq _ _ h]
  unfold glob_decode
  have hp : 0 < 2 ^ 49 := Nat.pos_pow_of_pos _ (by omega)
  rw [Prod.mk.injEq]
  constructor
  · rw [Nat.shiftRight_eq_div_pow, Nat.mul_add_div hp, Nat.div_eq_of_lt h]
    omega
  · rw [Nat.mul_add_mod]
    exact Nat.mod_eq_of_lt h

/-- C1: For every tile id and every offset below `2^49`, decoding the global
address produced by `glob_addr(tile, offset) = (0x4000 + tile) << 49 | offset`
recovers exactly the pair `(tile, offset)`; consequently the encoding is
injective on that domain, and the tag/shift constants are those of
`utils.glob_addr`. -/
theorem c1_glob_addr_roundtrip (tile offset : Nat) (h : offset < 2 ^ 49) :
    glob_decode (glob_addr tile offset) = (tile, offset) ∧
    ∀ tile' offset', offset' < 2 ^ 49 →
      glob_addr tile offset = glob_addr tile' offset' →
      tile = tile' ∧ offset = offset' := by
  refine ⟨glob_decode_glob_addr tile offset h, ?_⟩
  intro t' o' h' heq
  have := glob_decode_glob_addr tile offset h
  have h2 := glob_decode_glob_addr t' o' h'
  rw [heq] at this
  rw [h2] at this
  exact ⟨(Prod.mk.injEq _ _ _ _).mp this.symm |>.1, (Prod.mk.injEq _ _ _ _).mp this.symm |>.2⟩

theorem c1_glob_addr_roundtrip_witness :
    glob_decode (glob_addr 5 0x123) = (5, 0x123) :=
  (c1_glob_addr_roundtrip 5 0x123 (by decide)).1

/-! ## `loader.py`: the `Loader` class

`self.pmp_size` and `self.vm` are passed explicitly. A tile is represented
by its NoC id pair (the only attribute `loader.py` reads from a `pm`). -/

structure Tile where
  nocid : Nat × Nat
deriving DecidableEq

structure Env where
  /-- `os.path.getsize(path)` relative to the working directory. -/
  fsize : List Char → Nat
  /-- contents of `open(path, "rb").read()` relative to the working directory. -/
  fbytes : List Char → List Nat
  /-- `ELFFile(open(path)).header["e_entry"]`. -/
  elfEntry : List Char → Nat
  /-- `tile.tcu_version()` per tile index. -/
  tcuVersion : Nat → Nat

/-- Embedding of Python `x & ~(align - 1)` on a nonnegative int (Python
computes it with an infinite-precision two's-complement mask; on
nonnegative values it equals rounding down to a multiple of `align`). -/
def alignDown (x align : Nat) : Nat := x - x % align

/-- `Loader._tile_desc(tiles, tile_idx)` (bit-packed tile descriptor). -/
def tile_desc (vm : Bool) (pmp_size ntiles tile_idx : Nat) : Nat :=
  if tile_idx ≥ ntiles then
    -- mem size | TileAttr::IMEM | TileType::MEM
    (DRAM_SIZE >>> 12) <<< 28 ||| (1 <<< 4) <<< 11 ||| 1
  else
    let d := 1 <<< 6  -- RISCV
    -- mem size | TileAttr::IMEM
    let d := if ¬vm then d ||| (pmp_size >>> 12) <<< 28 ||| (1 <<< 4) <<< 11 else d
    let d := if tile_idx < 5 then d ||| (1 <<< 1) <<< 11  -- Rocket core
             else d ||| (1 <<< 0) <<< 11                  -- BOOM core
    let d := if tile_idx = 6 then d ||| (1 <<< 2) <<< 11 ||| (1 <<< 3) <<< 11  -- NIC, Serial
             else d
    d

/-- `Loader._write_file(dram, file, offset)`: reads the file and writes its
bytes to DRAM at `offset`. -/
def write_file (env : Env) (file : List Char) (offset : Nat) : Res Unit :=
  emit (.wfile file (env.fbytes file) offset)

/-- `Loader._add_mod(dram, addr, mod, offset)`: splits `mod` at `=`, takes
the basename of the path, records `(glob_addr, size, name)` at `offset` and
copies the file to `addr`; returns the file size.  A malformed module string
raises (unpacking `mod.split('=')` into two names). -/
def add_mod (env : Env) (addr : Nat) (mod : List Char) (offset : Nat) : Res Nat :=
  match pySplit '=' mod with
  | [name, path] =>
    let path := pyBasename path
    let size := env.fsize path
    bindR (write_u64 (offset + 0x0) (glob_addr MEM_TILE addr)) fun _ =>
    bindR (write_u64 (offset + 0x8) size) fun _ =>
    bindR (write_str name (offset + 16)) fun _ =>
    bindR (write_file env path addr) fun _ =>
    retR size
  | _ => abortR "ValueError"

/-- The `for m in mods` loop of `Loader._load_boot_info`: threads the module
cursor `mods_addr` (aligned up to 4 KiB after each payload) and the
descriptor cursor `kenv_off` (advanced by 80 per module); returns both. -/
def add_mods (env : Env) : List (List Char) → Nat → Nat → Res (Nat × Nat)
  | [], mods_addr, kenv_off => retR (mods_addr, kenv_off)
  | m :: rest, mods_addr, kenv_off =>
    bindR (add_mod env mods_addr m kenv_off) fun mod_size =>
    add_mods env rest (alignDown (mods_addr + mod_size + 4096 - 1) 4096) (kenv_off + 80)

/-- The `for x in range(0, len(tiles))` loop of `Loader._load_boot_info`:
writes `n` remaining tile descriptors starting at index `x` and offset
`kenv_off`; returns the final offset. -/
def write_tile_descs (vm : Bool) (pmp_size ntiles : Nat) : Nat → Nat → Nat → Res Nat
  | 0, _, kenv_off => retR kenv_off
  | n + 1, x, kenv_off =>
    bindR (write_u64 kenv_off (tile_desc vm pmp_size ntiles x)) fun _ =>
    write_tile_descs vm pmp_size ntiles n (x + 1) (kenv_off + 8)

/-- `Loader._load_boot_info(tiles, dram, mods, mods_addr)`. -/
def load_boot_info (env : Env) (vm : Bool) (pmp_size ntiles : Nat)
    (mods : List (List Char)) (mods_addr : Nat) : Res Unit :=
  bindR (write_u64 (KENV_ADDR + 0 * 8) mods.length) fun _ =>        -- mod_count
  bindR (write_u64 (KENV_ADDR + 1 * 8) (ntiles + 1)) fun _ =>       -- tile_count
  bindR (write_u64 (KENV_ADDR + 2 * 8) 1) fun _ =>                  -- mem_count
  bindR (write_u64 (KENV_ADDR + 3 * 8) 0) fun _ =>                  -- serv_count
  bindR (add_mods env mods mods_addr (KENV_ADDR + 8 * 4)) fun mk =>
  bindR (write_tile_descs vm pmp_size ntiles ntiles 0 mk.2) fun kenv_off =>
  bindR (write_u64 kenv_off (tile_desc vm pmp_size ntiles ntiles)) fun _ =>  -- dram1
  let kenv_off := kenv_off + 8
  let mem_start := mk.1
  bindR (write_u64 (kenv_off + 0) (glob_addr MEM_TILE mem_start)) fun _ =>   -- addr
  write_u64 (kenv_off + 8) (DRAM_SIZE - mem_start)                           -- size

/-- `Loader._init_tile(dram, tile, tile_idx, loaded)`. -/
def init_tile (vm : Bool) (pmp_size : Nat) (dram_nocid : Nat × Nat)
    (tile_idx : Nat) (loaded : Bool) : Res Unit :=
  bindR (emit (.tcuReset tile_idx)) fun _ =>
  bindR (emit (.enableTrace tile_idx)) fun _ =>
  bindR (emit (.setFeatures tile_idx 1 vm 1)) fun _ =>
  -- invalidate all EPs: for ep in range(0, 127)
  bindR (emitAll ((List.range 127).map fun ep => .setEp tile_idx ep none)) fun _ =>
  -- init PMP EP (for loaded tiles or if SPM should be emulated)
  if loaded || !vm then
    let mem_begin := PMP_ADDR + tile_idx * pmp_size
    let mem_size := pmp_size
    emit (.setEp tile_idx 0 (some ⟨dram_nocid.1, dram_nocid.2, 0xFFFF,
                                   true, true, mem_begin, mem_size⟩))
  else retR ()

/-- The loop body of `Loader._write_args`: `args_addr` is the running
cursor; the check against `ENV + 0x800` happens after each argument. -/
def write_args_loop (args : List (List Char)) (idx argv args_addr mem_begin : Nat) :
    Res Nat :=
  match args with
  | [] => retR args_addr
  | a :: rest =>
    -- write pointer
    bindR (write_u64 (argv + mem_begin - DRAM_OFF + idx * 8) args_addr) fun _ =>
    -- write string
    bindR (write_str a (args_addr + mem_begin - DRAM_OFF)) fun _ =>
    let args_addr := args_addr + alignDown (a.length + 1 + 7) 8
    if args_addr > ENV + 0x800 then abortR "Not enough space for arguments"
    else write_args_loop rest (idx + 1) argv args_addr mem_begin

/-- `Loader._write_args(dram, args, argv, mem_begin)`: marshals the argv
pointer table and strings, returns the final cursor. -/
def write_args (args : List (List Char)) (argv mem_begin : Nat) : Res Nat :=
  let argc := args.length
  bindR (write_args_loop args 0 argv (argv + (argc + 1) * 8) mem_begin) fun r =>
  -- null termination
  bindR (write_u64 (argv + mem_begin - DRAM_OFF + argc * 8) 0) fun _ =>
  retR r

/-- The tile-id table loop at the end of `Loader._load_prog`. -/
def write_tile_ids (dram_env : Nat) : List Tile → Nat → Res Nat
  | [], env_off => retR env_off
  | t :: rest, env_off =>
    bindR (write_u64 (dram_env + env_off) (t.nocid.1 <<< 8 ||| t.nocid.2)) fun _ =>
    write_tile_ids dram_env rest (env_off + 8)

/-- `Loader._load_prog(tiles, dram, tile_idx, args, logflags)`. -/
def load_prog (env : Env) (vm : Bool) (pmp_size : Nat) (tiles : List Tile)
    (dram_nocid : Nat × Nat) (tile_idx : Nat) (args : List (List Char))
    (logflags : List Char) : Res Unit :=
  if tile_idx < tiles.length then     -- pm = tiles[tile_idx]
    match args with
    | [] => abortR "IndexError"       -- args[0]
    | a0 :: _ =>
      -- start core
      bindR (emit (.start tile_idx)) fun _ =>
      -- verify entrypoint
      (if env.elfEntry a0 ≠ 0x10003000 then
        abortR "error: entry is not 0x10003000"   -- sys.exit
      else
      let mem_begin := PMP_ADDR + tile_idx * pmp_size
      -- load ELF file (offset can be negative in Python, hence Int)
      bindR (emit (.welf a0 ((mem_begin : Int) - (DRAM_OFF : Int)))) fun _ =>
      let desc := tile_desc vm pmp_size tiles.length tile_idx
      let kenv := if tile_idx = 0 then glob_addr MEM_TILE KENV_ADDR else 0
      -- write arguments and env vars
      let argv := ENV + 0x400
      bindR (write_args args argv mem_begin) fun envp0 =>
      bindR (if logflags ≠ [] then
               -- ["LOG=" + logflags]
               bindR (write_args [( 'L' :: 'O' :: 'G' :: '=' :: logflags)] envp0 mem_begin)
                 fun _ => retR envp0
             else retR 0) fun envp =>
      -- init environment
      let dram_env := ENV + mem_begin - DRAM_OFF
      bindR (write_u64 (dram_env - 0x1000) 0x0000306f) fun _ =>  -- j _start (+0x3000)
      bindR (write_u64 (dram_env + 0) 1) fun _ =>                -- platform = HW
      bindR (write_u64 (dram_env + 8) tile_idx) fun _ =>         -- chip, tile
      bindR (write_u64 (dram_env + 16) desc) fun _ =>            -- tile_desc
      bindR (write_u64 (dram_env + 24) args.length) fun _ =>     -- argc
      bindR (write_u64 (dram_env + 32) argv) fun _ =>            -- argv
      bindR (write_u64 (dram_env + 40) envp) fun _ =>            -- envp
      bindR (write_u64 (dram_env + 48) kenv) fun _ =>            -- kenv
      bindR (write_u64 (dram_env + 56) (tiles.length + 1)) fun _ =>  -- raw tile count
      bindR (write_tile_ids dram_env tiles 64) fun env_off =>
      write_u64 (dram_env + env_off) (dram_nocid.1 <<< 8 ||| dram_nocid.2))
  else abortR "IndexError"

/-- The `for i, tile in enumerate(tiles)` loop of `Loader.init`:
`nk` is `len(kernel_tiles)`. -/
def init_tiles (vm : Bool) (pmp_size : Nat) (dram_nocid : Nat × Nat) (nk : Nat) :
    List Tile → Nat → Res Unit
  | [], _ => retR ()
  | _t :: rest, i =>
    bindR (init_tile vm pmp_size dram_nocid i (decide (i < nk))) fun _ =>
    init_tiles vm pmp_size dram_nocid nk rest (i + 1)

/-- The `for i, pargs in enumerate(kernel_tiles)` loop of `Loader.init`:
each kernel argument string is split on spaces. -/
def load_progs (env : Env) (vm : Bool) (pmp_size : Nat) (tiles : List Tile)
    (dram_nocid : Nat × Nat) (logflags : List Char) :
    List (List Char) → Nat → Res Unit
  | [], _ => retR ()
  | pargs :: rest, i =>
    bindR (load_prog env vm pmp_size tiles dram_nocid i (pySplit ' ' pargs) logflags) fun _ =>
    load_progs env vm pmp_size tiles dram_nocid logflags rest (i + 1)

/-- The module-area base computed by `Loader.init`: with virtual memory the
boot-info layout reserves one window per *kernel* tile, otherwise one per
tile. -/
def init_mods_addr (vm : Bool) (pmp_size : Nat) (tiles : List Tile)
    (kernels : List (List Char)) : Nat :=
  if vm then PMP_ADDR + (kernels.take tiles.length).length * pmp_size
  else PMP_ADDR + tiles.length * pmp_size

/-- `Loader.init(tiles, dram, kernels, mods, logflags)`. -/
def Loader.init (env : Env) (vm : Bool) (pmp_size : Nat) (tiles : List Tile)
    (dram_nocid : Nat × Nat) (kernels mods : List (List Char))
    (logflags : List Char) : Res Unit :=
  let kernel_tiles := kernels.take tiles.length
  let mods_addr := init_mods_addr vm pmp_size tiles kernels
  bindR (load_boot_info env vm pmp_size tiles.length mods mods_addr) fun _ =>
  bindR (init_tiles vm pmp_size dram_nocid kernel_tiles.length tiles 0) fun _ =>
  load_progs env vm pmp_size tiles dram_nocid logflags kernel_tiles 0

/-- The `for i, tile in enumerate(tiles)` loop of `Loader.start`. -/
def start_tiles (debug_tile : Nat) : Nat → Nat → List Event
  | 0, _ => []
  | n + 1, i =>
    (if i ≠ debug_tile then [.rocketStart i] else []) ++ start_tiles debug_tile n (i + 1)

/-- `Loader.start(tiles, debug)`: starts every tile except the debug tile
(via interrupt 0). -/
def Loader.start (ntiles : Nat) (debug : Option Nat) : Res Unit :=
  let debug_tile := match debug with | none => ntiles | some d => d
  emitAll (start_tiles debug_tile ntiles 0)

/-! ## `term.py`: the mailbox console backend -/

/-- The serial-mailbox writes of `TCUTerm.__init__`: reset tile and EP in
case they are set from a previous run. -/
def TCUTerm.init_events : List Event :=
  [.w64 (SERIAL_ADDR + 0) 0, .w64 (SERIAL_ADDR + 8) 0]

/-- `TCUTerm._write(data)`: reads the destination from the serial mailbox
(`tile` at `SERIAL_ADDR`, `ep` at `SERIAL_ADDR + 8`) and sends the bytes
only if the EP field is nonzero; `mem` maps a DRAM address to the u64
stored there. -/
def TCUTerm.write (mem : Nat → Nat) (data : List Char) : List Event :=
  let tile := mem (SERIAL_ADDR + 0)
  let ep := mem (SERIAL_ADDR + 8)
  if ep ≠ 0 then [.send (tile >>> 8) (tile &&& 0xFF) ep data] else []

/-! ## `main.py` -/

/-- Which diagnostic reads of one tile raise an exception during teardown
(the oracle for the `try`/`except` blocks in `main`). -/
structure TileFaults where
  nocCountersFail : Bool
  flitCountersFail : Bool
  logFail : Bool
  logAllFail : Bool
  traceFail : Bool
  traceAllFail : Bool
deriving DecidableEq

/-- The per-tile body of the teardown loop at the end of `main` (from
"Stopping all tiles..." to `tile.stop()`): counter reads are attempted
always, the TCU command log only on timeout with one reset-and-retry
(`all=True`) on failure, the instruction trace always with the same
fallback; a failing retry is swallowed (`except Exception: pass`). -/
def teardown_tile (f : TileFaults) (timed_out : Bool) (i : Nat) : List Event :=
  [.nocCounters i] ++ [.flitCounters i]
  ++ (if timed_out then
        [.printLog i false]
        ++ (if f.logFail then [.tcuReset i, .printLog i true] else [])
      else [])
  ++ [.printTrace i false]
  ++ (if f.traceFail then [.tcuReset i, .printTrace i true] else [])
  ++ [.stop i]

/-- The teardown loop over all tiles. -/
def teardown (f : Nat → TileFaults) (timed_out : Bool) (ntiles : Nat) : List Event :=
  (List.range ntiles).flatMap fun i => teardown_tile (f i) timed_out i

/-- `main()` of `main.py`, from the point where the FPGA is connected:
stop all tiles, check TCU versions (mismatch returns early), load, start,
write the `.ready` marker only with `--debug`, construct the console
backend, run the main loop (its outcome `timed_out` is an oracle), and
tear down. -/
def main_run (env : Env) (version : Nat) (tiles : List Tile) (dram_nocid : Nat × Nat)
    (ktiles mods : List (List Char)) (vm : Bool) (debug : Option Nat)
    (serial : Bool) (logflags : List Char) (timed_out : Bool)
    (faults : Nat → TileFaults) : Res Unit :=
  -- stop all tiles
  bindR (emitAll ((List.range tiles.length).map .stop)) fun _ =>
  -- check TCU versions (first mismatch prints and returns)
  if (List.range tiles.length).any fun i => env.tcuVersion i ≠ version then retR ()
  else
    let pmp_size := if vm then 16 * 1024 * 1024 else 64 * 1024 * 1024
    -- disable NoC ARQ for program upload
    bindR (emit (.arqEnable false)) fun _ =>
    bindR (Loader.init env vm pmp_size tiles dram_nocid ktiles mods logflags) fun _ =>
    -- enable NoC ARQ when cores are running
    bindR (emit (.arqEnable true)) fun _ =>
    bindR (Loader.start tiles.length debug) fun _ =>
    -- signal run.sh that everything has been loaded
    bindR (if debug ≠ none then emit .writeReady else retR ()) fun _ =>
    bindR (if serial then retR () else emitAll TCUTerm.init_events) fun _ =>
    bindR (emit .enterLoop) fun _ =>
    -- disable NoC ARQ again for post-processing
    bindR (emit (.arqEnable false)) fun _ =>
    emitAll (teardown faults timed_out tiles.length)

/-! ## C7: mailbox console backend -/

/-- C7: For the mailbox console backend, a write while the ready field (the
second 8-byte word of the serial region) is zero sends nothing (and is not
buffered: the write produces no event at all), a write with a nonzero ready
field sends the bytes to the tile/endpoint destination read from the
mailbox, and backend start clears both mailbox fields to zero. -/
theorem c7_mailbox_console (mem : Nat → Nat) (data : List Char) :
    (mem (SERIAL_ADDR + 8) = 0 → TCUTerm.write mem data = []) ∧
    (mem (SERIAL_ADDR + 8) ≠ 0 →
      TCUTerm.write mem data =
        [.send (mem (SERIAL_ADDR + 0) >>> 8) (mem (SERIAL_ADDR + 0) &&& 0xFF)
          (mem (SERIAL_ADDR + 8)) data]) ∧
    TCUTerm.init_events = [.w64 (SERIAL_ADDR + 0) 0, .w64 (SERIAL_ADDR + 8) 0] := by
  refine ⟨fun h => ?_, fun h => ?_, rfl⟩
  · simp [TCUTerm.write, h]
  · simp [TCUTerm.write, h]

theorem c7_mailbox_console_witness :
    TCUTerm.write (fun _ => 0) [ 'x' ] = [] ∧
    TCUTerm.write (fun _ => 0x0507) [ 'x' ] = [.send 5 7 0x0507 [ 'x' ]] := by
  constructor
  · exact (c7_mailbox_console (fun _ => 0) [ 'x' ]).1 rfl
  · have := ((c7_mailbox_console (fun _ => 0x0507) [ 'x' ]).2.1 (by decide))
    simpa using this

/-! ## C5: module-area base with virtual memory -/

/-- C5 counterexample: with virtual memory enabled, two tiles but only one
kernel program, the module-area base computed by `Loader.init` is
`PMP_ADDR + 1 * pmp_size`, not `PMP_ADDR + 2 * pmp_size` as the claim
(uniform layout, identical to the vm-disabled case) requires. -/
theorem c5_counterexample :
    init_mods_addr true (16 * 1024 * 1024) [⟨(0, 0)⟩, ⟨(0, 1)⟩] [[ 'k' ]] ≠
      PMP_ADDR + 2 * (16 * 1024 * 1024) ∧
    init_mods_addr true (16 * 1024 * 1024) [⟨(0, 0)⟩, ⟨(0, 1)⟩] [[ 'k' ]] ≠
      init_mods_addr false (16 * 1024 * 1024) [⟨(0, 0)⟩, ⟨(0, 1)⟩] [[ 'k' ]] := by
  constructor <;> decide

/-- C5 (amended): with virtual memory enabled, `Loader.init` reserves
window-sized space only for the kernel tiles (`kernels[0:len(tiles)]`), so
the module-area base is `PMP_ADDR + min(#kernels, #tiles) * pmp_size`; it
coincides with the vm-disabled layout (`PMP_ADDR + #tiles * pmp_size`)
exactly when at least as many kernel programs as tiles are given. -/
theorem c5_mods_addr (pmp_size : Nat) (tiles : List Tile)
    (kernels : List (List Char)) :
    init_mods_addr true pmp_size tiles kernels =
      PMP_ADDR + min tiles.length kernels.length * pmp_size ∧
    init_mods_addr false pmp_size tiles kernels =
      PMP_ADDR + tiles.length * pmp_size ∧
    (tiles.length ≤ kernels.length →
      init_mods_addr true pmp_size tiles kernels =
        init_mods_addr false pmp_size tiles kernels) ∧
    (kernels.length < tiles.length → 0 < pmp_size →
      init_mods_addr true pmp_size tiles kernels <
        init_mods_addr false pmp_size tiles kernels) := by
  refine ⟨by simp [init_mods_addr], by simp [init_mods_addr], fun h => ?_, fun h hp => ?_⟩
  · simp [init_mods_addr, List.length_take, Nat.min_eq_left h]
  · simp only [init_mods_addr, List.length_take, Bool.false_eq_true, if_true, if_false]
    have hm : min tiles.length kernels.length = kernels.length :=
      Nat.min_eq_right (le_of_lt h)
    rw [hm]
    exact Nat.add_lt_add_left ((Nat.mul_lt_mul_right hp).mpr h) _

theorem c5_mods_addr_witness :
    init_mods_addr true 4096 [⟨(0, 0)⟩] [[ 'k' ], [ 'j' ]] =
      init_mods_addr false 4096 [⟨(0, 0)⟩] [[ 'k' ], [ 'j' ]] :=
  (c5_mods_addr 4096 [⟨(0, 0)⟩] [[ 'k' ], [ 'j' ]]).2.2.1 (by decide)

/-! ## C10: module option resolution in `_add_mod` -/

theorem pySplit_cons_sep (sep c : Char) (rest : List Char) (h : c = sep) :
    pySplit sep (c :: rest) = [] :: pySplit sep rest := by
  simp [pySplit, h]

theorem pySplit_cons_ne (sep c : Char) (rest : List Char) (h : ¬c = sep) :
    pySplit sep (c :: rest) =
      (c :: (pySplit sep rest).headD []) :: (pySplit sep rest).tail := by
  simp [pySplit, h]

theorem pySplit_sep_length (sep : Char) (xs ys : List Char) :
    2 ≤ (pySplit sep (xs ++ sep :: ys)).length := by
  induction xs with
  | nil =>
    rw [List.nil_append, pySplit_cons_sep sep sep ys rfl, List.length_cons]
    have : 0 < (pySplit sep ys).length := List.length_pos.mpr (pySplit_ne_nil sep ys)
    omega
  | cons c xs ih =>
    rw [List.cons_append]
    by_cases hc : c = sep
    · rw [pySplit_cons_sep sep c _ hc, List.length_cons]
      have : 0 < (pySplit sep (xs ++ sep :: ys)).length :=
        List.length_pos.mpr (pySplit_ne_nil _ _)
      omega
    · rw [pySplit_cons_ne sep c _ hc, List.length_cons, List.length_tail]
      omega

theorem pyBasename_append (xs ys : List Char) :
    pyBasename (xs ++ '/' :: ys) = pyBasename ys := by
  induction xs with
  | nil =>
    rw [List.nil_append]
    unfold pyBasename
    rw [pySplit_cons_sep _ _ _ rfl, List.getLastD_cons]
  | cons c xs ih =>
    rw [List.cons_append]
    unfold pyBasename at ih ⊢
    by_cases hc : c = '/'
    · rw [pySplit_cons_sep _ _ _ hc, List.getLastD_cons]
      exact ih
    · rw [pySplit_cons_ne _ _ _ hc, List.getLastD_cons]
      have hlen := pySplit_sep_length '/' xs ys
      cases hr : pySplit '/' (xs ++ '/' :: ys) with
      | nil => rw [hr] at hlen; simp at hlen
      | cons a l =>
        cases l with
        | nil => rw [hr] at hlen; simp at hlen
        | cons b l =>
          rw [hr, List.getLastD_cons, List.getLastD_cons] at ih
          rw [List.tail_cons, List.getLastD_cons]
          exact ih

/-- C10: For every module option that splits at `=` into a name and a path,
`_add_mod` records the name (the part before `=`) in the descriptor, takes
only the basename of the path, and reads both the recorded size and the
copied payload bytes from that basename file (resolved against the current
working directory); directory components of the path are ignored. -/
theorem c10_add_mod (env : Env) (addr offset : Nat) (mod name path : List Char)
    (h : pySplit '=' mod = [name, path]) :
    add_mod env addr mod offset =
      ([.w64 (offset + 0x0) (glob_addr MEM_TILE addr),
        .w64 (offset + 0x8) (env.fsize (pyBasename path)),
        .wstr (offset + 16) name,
        .wfile (pyBasename path) (env.fbytes (pyBasename path)) addr],
       Except.ok (env.fsize (pyBasename path))) ∧
    ∀ dirs rest, path = dirs ++ '/' :: rest → pyBasename path = pyBasename rest := by
  constructor
  · simp [add_mod, h, write_u64, write_str, write_file, emit, bindR, retR]
  · intro dirs rest hp
    rw [hp]
    exact pyBasename_append dirs rest

theorem c10_add_mod_witness :
    add_mod ⟨fun _ => 7, fun _ => [1, 2], fun _ => 0, fun _ => 0⟩ 4096
        ([ 'b', 'o', 'o', 't', '=', 'd', 'i', 'r', '/', 'f', 's' ]) 32 =
      ([.w64 (32 + 0x0) (glob_addr MEM_TILE 4096),
        .w64 (32 + 0x8) 7,
        .wstr (32 + 16) [ 'b', 'o', 'o', 't' ],
        .wfile [ 'f', 's' ] [1, 2] 4096],
       Except.ok 7) := by
  have := (c10_add_mod ⟨fun _ => 7, fun _ => [1, 2], fun _ => 0, fun _ => 0⟩ 4096 32
    ([ 'b', 'o', 'o', 't', '=', 'd', 'i', 'r', '/', 'f', 's' ])
    [ 'b', 'o', 'o', 't' ] [ 'd', 'i', 'r', '/', 'f', 's' ] (by decide)).1
  rw [this]
  rfl

/-! ## C6: argument marshaling and the reserved-space bound -/

/-- The cursor advance per argument in `_write_args`: the null-terminated
length rounded up to a multiple of 8 (`(len(a) + 1 + 7) & ~7`). -/
def arg_slot (a : List Char) : Nat := alignDown (a.length + 1 + 7) 8

theorem alignDown_eq (x k : Nat) : alignDown x k = k * (x / k) := by
  have := Nat.div_add_mod x k
  unfold alignDown
  omega

theorem arg_slot_pos (a : List Char) : 8 ≤ arg_slot a := by
  rw [arg_slot, alignDown_eq]
  have h8 : 1 ≤ (a.length + 1 + 7) / 8 := (Nat.one_le_div_iff (by omega)).mpr (by omega)
  omega

theorem write_args_loop_error (args : List (List Char)) :
    ∀ idx argv c mb,
      ((write_args_loop args idx argv c mb).2 =
          Except.error "Not enough space for arguments" ↔
        args ≠ [] ∧ c + (args.map arg_slot).sum > ENV + 0x800) ∧
      ((write_args_loop args idx argv c mb).2 =
          Except.error "Not enough space for arguments" ∨
        ∃ r, (write_args_loop args idx argv c mb).2 = Except.ok r) := by
  induction args with
  | nil =>
    intro idx argv c mb
    constructor
    · simp [write_args_loop, retR]
    · exact Or.inr ⟨c, rfl⟩
  | cons a rest ih =>
    intro idx argv c mb
    have hslot : 8 ≤ arg_slot a := arg_slot_pos a
    simp only [write_args_loop, write_u64, write_str, emit, bindR_ok]
    by_cases hb : c + alignDown (a.length + 1 + 7) 8 > ENV + 0x800
    · simp only [if_pos hb, abortR]
      constructor
      · simp only [List.map_cons, List.sum_cons]
        have : c + (arg_slot a + ((rest.map arg_slot).sum)) > ENV + 0x800 := by
          have : arg_slot a = alignDown (a.length + 1 + 7) 8 := rfl
          omega
        simp [this]
      · exact Or.inl trivial
    · simp only [if_neg hb]
      have ihx := ih (idx + 1) argv (c + alignDown (a.length + 1 + 7) 8) mb
      constructor
      · rw [ihx.1]
        simp only [List.map_cons, List.sum_cons, ne_eq]
        have heq : arg_slot a = alignDown (a.length + 1 + 7) 8 := rfl
        constructor
        · intro hh
          refine ⟨by simp, ?_⟩
          omega
        · intro hh
          rcases hh with ⟨_, hgt⟩
          cases rest with
          | nil =>
            exfalso
            simp only [List.map_nil, List.sum_nil] at hgt
            omega
          | cons b r2 =>
            refine ⟨by simp, ?_⟩
            omega
      · exact ihx.2

/-- C6: `_write_args` fails fatally with the "Not enough space" condition
if and only if the running cursor — starting at the pointer-table base
`argv + (argc + 1) * 8` and advancing by each argument's null-terminated
length rounded up to 8 — exceeds the fixed bound `ENV + 0x800` (a condition
computable from the argument lengths alone); argument lists within the
bound complete without error. -/
theorem c6_write_args (args : List (List Char)) (argv mem_begin : Nat) :
    ((write_args args argv mem_begin).2 =
        Except.error "Not enough space for arguments" ↔
      args ≠ [] ∧
        argv + (args.length + 1) * 8 + (args.map arg_slot).sum > ENV + 0x800) ∧
    (¬(args ≠ [] ∧
        argv + (args.length + 1) * 8 + (args.map arg_slot).sum > ENV + 0x800) →
      ∃ r, (write_args args argv mem_begin).2 = Except.ok r) := by
  have h := write_args_loop_error args 0 argv (argv + (args.length + 1) * 8) mem_begin
  have hsnd : (write_args args argv mem_begin).2 =
      (write_args_loop args 0 argv (argv + (args.length + 1) * 8) mem_begin).2 := by
    unfold write_args
    cases hrr : write_args_loop args 0 argv (argv + (args.length + 1) * 8) mem_begin with
    | mk evs r =>
      cases r with
      | error e => unfold bindR; dsimp only; rw [hrr]
      | ok v =>
        unfold bindR
        dsimp only
        rw [hrr]
        rfl
  rw [hsnd]
  refine ⟨h.1, fun hn => ?_⟩
  rcases h.2 with herr | hok
  · exact absurd (h.1.mp herr) hn
  · exact hok

theorem c6_write_args_witness :
    ∃ r, (write_args [[ 'a' ]] (ENV + 0x400) PMP_ADDR).2 = Except.ok r :=
  (c6_write_args [[ 'a' ]] (ENV + 0x400) PMP_ADDR).2 (by decide)

/-! ## C2/C3: boot-info blob layout

The following definitions state the layout the spec describes (fixed-order
count header, 80-byte-stride module records after the 32-byte header, tile
descriptors, trailing memory record); the theorems below relate them to the
traces of `load_boot_info`/`add_mods`. -/

/-- `mods_addr + mod_size + 4096 - 1 & ~(4096 - 1)`: the cursor advance of
the module loop, rounding up to the next 4 KiB boundary. -/
def align4kUp (x : Nat) : Nat := alignDown (x + 4096 - 1) 4096

/-- The payload size of a module option (`os.path.getsize` of the basename
of the part after `=`). -/
def mod_size (env : Env) (m : List Char) : Nat :=
  match pySplit '=' m with
  | [_name, path] => env.fsize (pyBasename path)
  | _ => 0

/-- The boot-info record of one module at descriptor offset `kenv_off`,
placed at module-area address `addr`. -/
def mod_record (env : Env) (kenv_off addr : Nat) (m : List Char) : List Event :=
  match pySplit '=' m with
  | [name, path] =>
    [.w64 (kenv_off + 0x0) (glob_addr MEM_TILE addr),
     .w64 (kenv_off + 0x8) (env.fsize (pyBasename path)),
     .wstr (kenv_off + 16) name,
     .wfile (pyBasename path) (env.fbytes (pyBasename path)) addr]
  | _ => []

/-- All module records, threading the 4 KiB-aligned cursor and the 80-byte
descriptor stride. -/
def mod_records (env : Env) : List (List Char) → Nat → Nat → List Event
  | [], _addr, _kenv_off => []
  | m :: rest, addr, kenv_off =>
    mod_record env kenv_off addr m ++
      mod_records env rest (align4kUp (addr + mod_size env m)) (kenv_off + 80)

/-- The module-area address of each module in insertion order. -/
def mod_addrs (env : Env) : List (List Char) → Nat → List Nat
  | [], _addr => []
  | m :: rest, addr => addr :: mod_addrs env rest (align4kUp (addr + mod_size env m))

/-- The module-area cursor after all modules (start of the free memory
region recorded in the boot info). -/
def mods_end (env : Env) : List (List Char) → Nat → Nat
  | [], addr => addr
  | m :: rest, addr => mods_end env rest (align4kUp (addr + mod_size env m))

/-- The boot-info blob layout as the spec describes it: the four count
fields in order at offsets 0/8/16/24, the module records at 80-byte stride
from offset 32, one descriptor per tile, the trailing memory-region
descriptor, then the memory region's address and size. -/
def boot_info_layout (env : Env) (vm : Bool) (pmp_size ntiles : Nat)
    (mods : List (List Char)) (mods_addr : Nat) : List Event :=
  [.w64 0 mods.length, .w64 8 (ntiles + 1), .w64 16 1, .w64 24 0]
  ++ mod_records env mods mods_addr 32
  ++ ((List.range ntiles).map fun x =>
        .w64 (32 + 80 * mods.length + 8 * x) (tile_desc vm pmp_size ntiles x))
  ++ [.w64 (32 + 80 * mods.length + 8 * ntiles) (tile_desc vm pmp_size ntiles ntiles),
      .w64 (32 + 80 * mods.length + 8 * ntiles + 8)
        (glob_addr MEM_TILE (mods_end env mods mods_addr)),
      .w64 (32 + 80 * mods.length + 8 * ntiles + 8 + 8)
        (DRAM_SIZE - mods_end env mods mods_addr)]

theorem align4kUp_ge (x : Nat) : x ≤ align4kUp x := by
  unfold align4kUp alignDown
  omega

theorem align4kUp_dvd (x : Nat) : 4096 ∣ align4kUp x := by
  rw [align4kUp, alignDown_eq]
  exact Dvd.intro _ rfl

theorem add_mod_eq (env : Env) (addr offset : Nat) (m name path : List Char)
    (h : pySplit '=' m = [name, path]) :
    add_mod env addr m offset = (mod_record env offset addr m, Except.ok (mod_size env m)) := by
  simp [add_mod, mod_record, mod_size, h, write_u64, write_str, write_file, emit, bindR, retR]

theorem exists_two_of_length (m : List Char) (hm : (pySplit '=' m).length = 2) :
    ∃ name path, pySplit '=' m = [name, path] := by
  cases hs : pySplit '=' m with
  | nil => rw [hs] at hm; simp at hm
  | cons a l =>
    cases l with
    | nil => rw [hs] at hm; simp at hm
    | cons b l2 =>
      cases l2 with
      | nil => exact ⟨a, b, rfl⟩
      | cons c l3 =>
        rw [hs] at hm
        simp at hm

theorem add_mods_eq (env : Env) (mods : List (List Char))
    (hwf : ∀ m ∈ mods, (pySplit '=' m).length = 2) :
    ∀ addr kenv_off,
      add_mods env mods addr kenv_off =
        (mod_records env mods addr kenv_off,
         Except.ok (mods_end env mods addr, kenv_off + 80 * mods.length)) := by
  induction mods with
  | nil =>
    intro addr k
    simp [add_mods, mod_records, mods_end, retR]
  | cons m rest ih =>
    intro addr k
    obtain ⟨name, path, hsplit⟩ :=
      exists_two_of_length m (hwf m (List.mem_cons_self m rest))
    have hrest : ∀ m' ∈ rest, (pySplit '=' m').length = 2 :=
      fun m' hm' => hwf m' (List.mem_cons_of_mem m hm')
    simp only [add_mods]
    rw [add_mod_eq env addr k m name path hsplit, bindR_ok]
    rw [show alignDown (addr + mod_size env m + 4096 - 1) 4096 =
          align4kUp (addr + mod_size env m) from rfl]
    rw [ih hrest (align4kUp (addr + mod_size env m)) (k + 80)]
    simp only [mod_records, mods_end, List.length_cons]
    refine Prod.ext rfl ?_
    simp only
    congr 1
    rw [Prod.mk.injEq]
    exact ⟨rfl, by ring⟩

theorem write_tile_descs_eq (vm : Bool) (ps ntiles : Nat) :
    ∀ n x k,
      write_tile_descs vm ps ntiles n x k =
        ((List.range n).map fun j => .w64 (k + 8 * j) (tile_desc vm ps ntiles (x + j)),
         Except.ok (k + 8 * n)) := by
  intro n
  induction n with
  | zero => intro x k; simp [write_tile_descs, retR]
  | succ n ih =>
    intro x k
    simp only [write_tile_descs, write_u64, emit, bindR_ok]
    rw [ih (x + 1) (k + 8)]
    rw [List.range_succ_eq_map]
    refine Prod.ext ?_ ?_
    · simp only [List.map_cons, List.map_map]
      rw [Nat.mul_zero, Nat.add_zero, Nat.add_zero]
      simp only [List.singleton_append, List.cons.injEq]
      refine ⟨rfl, ?_⟩
      apply List.map_congr_left
      intro j _
      simp only [Function.comp_apply]
      have h1 : k + 8 + 8 * j = k + 8 * (j + 1) := by omega
      have h2 : x + 1 + j = x + (j + 1) := by omega
      rw [h1, h2]
    · simp only
      congr 1
      omega

theorem load_boot_info_eq (env : Env) (vm : Bool) (ps ntiles : Nat)
    (mods : List (List Char)) (mods_addr : Nat)
    (hwf : ∀ m ∈ mods, (pySplit '=' m).length = 2) :
    load_boot_info env vm ps ntiles mods mods_addr =
      (boot_info_layout env vm ps ntiles mods mods_addr, Except.ok ()) := by
  unfold load_boot_info
  rw [add_mods_eq env mods hwf mods_addr (KENV_ADDR + 8 * 4)]
  simp only [write_u64, emit, bindR_ok]
  rw [write_tile_descs_eq vm ps ntiles ntiles 0 (KENV_ADDR + 8 * 4 + 80 * mods.length)]
  simp only [bindR_ok, retR]
  refine Prod.ext ?_ rfl
  simp only [boot_info_layout, KENV_ADDR]
  simp only [List.append_assoc, List.cons_append, List.nil_append, List.singleton_append]
  norm_num

/-- C2: For every tile list and module list (each module option containing
exactly one `=`), `_load_boot_info` writes the four 8-byte count fields at
the boot-descriptor base `KENV_ADDR = 0` in the exact order module count
(`len(mods)`), tile count (`len(tiles) + 1`, the extra one for the trailing
memory region), memory-region count (`1`) and service count (`0`), followed
by the per-module records, the per-tile descriptor words, one trailing
memory-region descriptor word, and the `(address, size)` memory record, in
that order. -/
theorem c2_boot_info_layout (env : Env) (vm : Bool) (ps ntiles : Nat)
    (mods : List (List Char)) (mods_addr : Nat)
    (hwf : ∀ m ∈ mods, (pySplit '=' m).length = 2) :
    load_boot_info env vm ps ntiles mods mods_addr =
      (boot_info_layout env vm ps ntiles mods mods_addr, Except.ok ()) ∧
    (load_boot_info env vm ps ntiles mods mods_addr).1.take 4 =
      [.w64 (KENV_ADDR + 0 * 8) mods.length,
       .w64 (KENV_ADDR + 1 * 8) (ntiles + 1),
       .w64 (KENV_ADDR + 2 * 8) 1,
       .w64 (KENV_ADDR + 3 * 8) 0] := by
  have h := load_boot_info_eq env vm ps ntiles mods mods_addr hwf
  refine ⟨h, ?_⟩
  rw [h]
  simp [boot_info_layout, KENV_ADDR]

theorem c2_boot_info_layout_witness :
    load_boot_info (⟨fun _ => 5, fun _ => [9], fun _ => 0, fun _ => 0⟩ : Env)
        false 65536 1 [[ 'a', '=', 'x' ]] PMP_ADDR =
      (boot_info_layout (⟨fun _ => 5, fun _ => [9], fun _ => 0, fun _ => 0⟩ : Env)
        false 65536 1 [[ 'a', '=', 'x' ]] PMP_ADDR, Except.ok ()) :=
  (c2_boot_info_layout (⟨fun _ => 5, fun _ => [9], fun _ => 0, fun _ => 0⟩ : Env)
    false 65536 1 [[ 'a', '=', 'x' ]] PMP_ADDR (by decide)).1

theorem mods_end_ge (env : Env) (mods : List (List Char)) :
    ∀ addr, addr ≤ mods_end env mods addr := by
  induction mods with
  | nil => intro addr; simp [mods_end]
  | cons m rest ih =>
    intro addr
    have h1 : addr ≤ align4kUp (addr + mod_size env m) :=
      le_trans (Nat.le_add_right _ _) (align4kUp_ge _)
    simpa [mods_end] using le_trans h1 (ih (align4kUp (addr + mod_size env m)))

theorem mod_addrs_le_end (env : Env) (mods : List (List Char)) :
    ∀ addr a, a ∈ mod_addrs env mods addr → a ≤ mods_end env mods addr := by
  induction mods with
  | nil => intro addr a ha; simp [mod_addrs] at ha
  | cons m rest ih =>
    intro addr a ha
    simp only [mod_addrs, List.mem_cons] at ha
    rcases ha with rfl | ha
    · exact mods_end_ge env (m :: rest) a
    · simpa [mods_end] using ih (align4kUp (addr + mod_size env m)) a ha

theorem mod_addrs_dvd (env : Env) (mods : List (List Char)) :
    ∀ addr, 4096 ∣ addr → ∀ a ∈ mod_addrs env mods addr, 4096 ∣ a := by
  induction mods with
  | nil => intro addr _ a ha; simp [mod_addrs] at ha
  | cons m rest ih =>
    intro addr hdvd a ha
    simp only [mod_addrs, List.mem_cons] at ha
    rcases ha with rfl | ha
    · exact hdvd
    · exact ih _ (align4kUp_dvd _) a ha

theorem glob_addr_lt (a b : Nat) (hab : a < b) (hb : b < 2 ^ 49) :
    glob_addr MEM_TILE a < glob_addr MEM_TILE b := by
  rw [glob_addr_eq _ _ (lt_trans hab hb), glob_addr_eq _ _ hb]
  omega

theorem dvd_4096_two_pow_49 : (4096 : Nat) ∣ 2 ^ 49 := ⟨2 ^ 37, by norm_num⟩

theorem glob_addr_dvd_4096 (a : Nat) (ha : a < 2 ^ 49) (hdvd : 4096 ∣ a) :
    4096 ∣ glob_addr MEM_TILE a := by
  rw [glob_addr_eq _ _ ha]
  exact Nat.dvd_add (Dvd.dvd.mul_right dvd_4096_two_pow_49 _) hdvd

theorem mod_addrs_chain (env : Env) (mods : List (List Char))
    (hpos : ∀ m ∈ mods, 0 < mod_size env m) :
    ∀ addr, mods_end env mods addr < 2 ^ 49 →
      List.Chain' (· < ·) ((mod_addrs env mods addr).map (glob_addr MEM_TILE)) := by
  induction mods with
  | nil => intro addr _; simp [mod_addrs]
  | cons m rest ih =>
    intro addr hb
    have hb' : mods_end env rest (align4kUp (addr + mod_size env m)) < 2 ^ 49 := by
      simpa [mods_end] using hb
    have hpos' : ∀ m' ∈ rest, 0 < mod_size env m' :=
      fun m' hm' => hpos m' (List.mem_cons_of_mem _ hm')
    simp only [mod_addrs, List.map_cons]
    rw [List.chain'_cons']
    refine ⟨?_, ih hpos' _ hb'⟩
    intro b hbmem
    cases rest with
    | nil => simp [mod_addrs] at hbmem
    | cons r rs =>
      simp only [mod_addrs, List.map_cons, List.head?_cons] at hbmem
      have hbeq : b = glob_addr MEM_TILE (align4kUp (addr + mod_size env m)) := by
        simpa using hbmem.symm
      subst hbeq
      have hnext : addr < align4kUp (addr + mod_size env m) := by
        have := align4kUp_ge (addr + mod_size env m)
        have := hpos m (List.mem_cons_self m _)
        omega
      have hnb : align4kUp (addr + mod_size env m) < 2 ^ 49 :=
        lt_of_le_of_lt (mods_end_ge env (r :: rs) _) hb'
      exact glob_addr_lt _ _ hnext hnb

theorem mod_addrs_length (env : Env) (mods : List (List Char)) :
    ∀ addr, (mod_addrs env mods addr).length = mods.length := by
  induction mods with
  | nil => intro addr; simp [mod_addrs]
  | cons m rest ih => intro addr; simp [mod_addrs, ih]

theorem mod_records_length (env : Env) (mods : List (List Char))
    (hwf : ∀ m ∈ mods, (pySplit '=' m).length = 2) :
    ∀ addr k, (mod_records env mods addr k).length = 4 * mods.length := by
  induction mods with
  | nil => intro addr k; simp [mod_records]
  | cons m rest ih =>
    intro addr k
    obtain ⟨name, path, hsplit⟩ :=
      exists_two_of_length m (hwf m (List.mem_cons_self m rest))
    have hrest : ∀ m' ∈ rest, (pySplit '=' m').length = 2 :=
      fun m' hm' => hwf m' (List.mem_cons_of_mem m hm')
    simp only [mod_records, mod_record, hsplit, List.length_append, List.length_cons,
      List.length_nil, ih hrest, List.length_cons]
    omega

theorem mod_records_get (env : Env) :
    ∀ (mods : List (List Char)), (∀ m ∈ mods, (pySplit '=' m).length = 2) →
      ∀ (addr k j : Nat), j < mods.length →
        (mod_records env mods addr k).get? (4 * j) =
          some (.w64 (k + 80 * j)
            (glob_addr MEM_TILE ((mod_addrs env mods addr).getD j 0))) := by
  intro mods
  induction mods with
  | nil => intro _ addr k j hj; simp at hj
  | cons m rest ih =>
    intro hwf addr k j hj
    obtain ⟨name, path, hsplit⟩ :=
      exists_two_of_length m (hwf m (List.mem_cons_self m rest))
    have hrest : ∀ m' ∈ rest, (pySplit '=' m').length = 2 :=
      fun m' hm' => hwf m' (List.mem_cons_of_mem m hm')
    cases j with
    | zero =>
      simp [mod_records, mod_record, hsplit, mod_addrs]
    | succ jj =>
      have hjj : jj < rest.length := by simpa using hj
      have hlen : (mod_record env k addr m).length = 4 := by
        simp [mod_record, hsplit]
      have hge : (mod_record env k addr m).length ≤ 4 * (jj + 1) := by omega
      rw [mod_records, List.get?_append_right hge, hlen]
      have harith : 4 * (jj + 1) - 4 = 4 * jj := by omega
      rw [harith, ih hrest (align4kUp (addr + mod_size env m)) (k + 80) jj hjj]
      have h2 : k + 80 + 80 * jj = k + 80 * (jj + 1) := by omega
      rw [h2]
      have h3 : (mod_addrs env (m :: rest) addr).getD (jj + 1) 0 =
          (mod_addrs env rest (align4kUp (addr + mod_size env m))).getD jj 0 := by
        simp [mod_addrs]
      rw [h3]

/-- C3 counterexample: two modules whose payload files are empty are
recorded at the same 4 KiB-aligned global address: the module cursor does
not advance past a zero-size payload, so the recorded addresses are not
strictly increasing (both descriptors hold `glob_addr(8, PMP_ADDR)`). -/
theorem c3_counterexample :
    (add_mods (⟨fun _ => 0, fun _ => [], fun _ => 0, fun _ => 0⟩ : Env)
        [[ 'a', '=', 'x' ], [ 'b', '=', 'y' ]] PMP_ADDR 32).1 =
      [.w64 32 (glob_addr MEM_TILE PMP_ADDR),
       .w64 40 0,
       .wstr 48 [ 'a' ],
       .wfile [ 'x' ] [] PMP_ADDR,
       .w64 112 (glob_addr MEM_TILE PMP_ADDR),
       .w64 120 0,
       .wstr 128 [ 'b' ],
       .wfile [ 'y' ] [] PMP_ADDR] := by
  rfl

/-- C3 (amended): for a boot-info blob built from N modules (each module
option containing exactly one `=`), exactly N module descriptors of fixed
80-byte stride follow the 32-byte count header; if the module-area base is
4 KiB-aligned, every recorded global address is 4 KiB-aligned; and the
recorded global addresses are strictly increasing in insertion order
provided every module payload is nonempty (the cursor advances to the next
4 KiB boundary after each payload, which for a zero-size payload leaves the
cursor unchanged — hence the positivity proviso). -/
theorem c3_module_descriptors (env : Env) (vm : Bool) (ps ntiles : Nat)
    (mods : List (List Char)) (mods_addr : Nat)
    (hwf : ∀ m ∈ mods, (pySplit '=' m).length = 2)
    (halign : 4096 ∣ mods_addr)
    (hpos : ∀ m ∈ mods, 0 < mod_size env m)
    (hbound : mods_end env mods mods_addr < 2 ^ 49) :
    (mod_addrs env mods mods_addr).length = mods.length ∧
    (∀ j, j < mods.length →
      (load_boot_info env vm ps ntiles mods mods_addr).1.get? (4 + 4 * j) =
        some (.w64 (32 + 80 * j)
          (glob_addr MEM_TILE ((mod_addrs env mods mods_addr).getD j 0)))) ∧
    (∀ a ∈ mod_addrs env mods mods_addr, 4096 ∣ glob_addr MEM_TILE a) ∧
    List.Chain' (· < ·) ((mod_addrs env mods mods_addr).map (glob_addr MEM_TILE)) := by
  refine ⟨mod_addrs_length env mods mods_addr, fun j hj => ?_, fun a ha => ?_, ?_⟩
  · rw [load_boot_info_eq env vm ps ntiles mods mods_addr hwf]
    simp only [boot_info_layout, List.append_assoc]
    have hhead : ([Event.w64 0 mods.length, .w64 8 (ntiles + 1), .w64 16 1,
        .w64 24 0] : List Event).length = 4 := by simp
    rw [List.get?_append_right (by omega : ([Event.w64 0 mods.length, .w64 8 (ntiles + 1),
      .w64 16 1, .w64 24 0] : List Event).length ≤ 4 + 4 * j)]
    rw [hhead]
    have harith : 4 + 4 * j - 4 = 4 * j := by omega
    rw [harith]
    have hlt : 4 * j < (mod_records env mods mods_addr 32).length := by
      rw [mod_records_length env mods hwf]
      omega
    rw [List.get?_append hlt]
    exact mod_records_get env mods hwf mods_addr 32 j hj
  · have ha49 : a < 2 ^ 49 :=
      lt_of_le_of_lt (mod_addrs_le_end env mods mods_addr a ha) hbound
    exact glob_addr_dvd_4096 a ha49 (mod_addrs_dvd env mods mods_addr halign a ha)
  · exact mod_addrs_chain env mods hpos mods_addr hbound

theorem c3_module_descriptors_witness :
    List.Chain' (· < ·)
      ((mod_addrs (⟨fun _ => 5, fun _ => [9], fun _ => 0, fun _ => 0⟩ : Env)
          [[ 'a', '=', 'x' ], [ 'b', '=', 'y' ]] PMP_ADDR).map (glob_addr MEM_TILE)) :=
  (c3_module_descriptors (⟨fun _ => 5, fun _ => [9], fun _ => 0, fun _ => 0⟩ : Env)
    false 65536 1 [[ 'a', '=', 'x' ], [ 'b', '=', 'y' ]] PMP_ADDR
    (by decide) (by decide) (by decide) (by decide)).2.2.2

/-! ## C8: teardown diagnostics -/

/-- C8: During teardown every tile is processed and stopped regardless of
any diagnostic failures (failures are caught, never propagated to other
tiles or to the teardown sequence); on a timed-out run a failing TCU
command-log dump triggers exactly one retry — after a TCU reset, requesting
the full log — and the retry's own outcome is ignored (second failure
swallowed); the same reset-and-retry-once fallback applies to the
instruction trace; on a clean shutdown the TCU command-log dump is not
attempted at all. -/
theorem c8_teardown (f : Nat → TileFaults) (timed_out : Bool) (n i : Nat)
    (hi : i < n) :
    Event.stop i ∈ teardown f timed_out n ∧
    (∀ g : Nat → TileFaults, g i = f i →
      teardown_tile (g i) timed_out i = teardown_tile (f i) timed_out i) ∧
    (timed_out = false → ∀ j b, Event.printLog j b ∉ teardown f timed_out n) ∧
    (timed_out = true → (f i).logFail = true →
      teardown_tile (f i) timed_out i =
        [.nocCounters i, .flitCounters i, .printLog i false, .tcuReset i,
         .printLog i true, .printTrace i false]
        ++ (if (f i).traceFail then [.tcuReset i, .printTrace i true] else [])
        ++ [.stop i]) ∧
    (timed_out = true → (f i).logFail = false →
      teardown_tile (f i) timed_out i =
        [.nocCounters i, .flitCounters i, .printLog i false, .printTrace i false]
        ++ (if (f i).traceFail then [.tcuReset i, .printTrace i true] else [])
        ++ [.stop i]) ∧
    ((f i).traceFail = true →
      teardown_tile (f i) timed_out i =
        [.nocCounters i, .flitCounters i]
        ++ (if timed_out then
              [.printLog i false]
              ++ (if (f i).logFail then [.tcuReset i, .printLog i true] else [])
            else [])
        ++ [.printTrace i false, .tcuReset i, .printTrace i true, .stop i]) ∧
    (∀ g : Nat → TileFaults,
      (∀ j, (g j).logFail = (f j).logFail ∧ (g j).traceFail = (f j).traceFail) →
      teardown g timed_out n = teardown f timed_out n) := by
  refine ⟨?_, ?_, ?_, ?_, ?_, ?_, ?_⟩
  · simp only [teardown, List.mem_flatMap, List.mem_range]
    exact ⟨i, hi, by simp [teardown_tile]⟩
  · intro g hg
    rw [hg]
  · intro ht j b hmem
    subst ht
    simp only [teardown, List.mem_flatMap, List.mem_range] at hmem
    rcases hmem with ⟨a, _, hmem⟩
    rcases Bool.eq_false_or_eq_true (f a).traceFail with hf | hf <;>
      simp [teardown_tile, hf] at hmem
  · intro ht hl
    subst ht
    simp [teardown_tile, hl]
  · intro ht hl
    subst ht
    simp [teardown_tile, hl]
  · intro htr
    rcases Bool.eq_false_or_eq_true timed_out with ht | ht <;> subst ht <;>
      simp [teardown_tile, htr, List.append_assoc]
  · intro g hg
    have hfun : (fun j => teardown_tile (g j) timed_out j) =
        (fun j => teardown_tile (f j) timed_out j) := by
      funext j
      simp [teardown_tile, (hg j).1, (hg j).2]
    simp [teardown, hfun]

theorem c8_teardown_witness :
    Event.stop 1 ∈ teardown (fun _ => ⟨false, false, true, true, true, true⟩) true 2 :=
  (c8_teardown (fun _ => ⟨false, false, true, true, true, true⟩) true 2 1
    (by decide)).1

/-! ## C4/C9: traces of `Loader.init` and `main` -/

/-- Events the `Loader` itself can emit (memory/ELF writes, per-tile
hardware setup, the clock-start of `pm.start()`), as opposed to the
execution-start, ready-marker and run-loop events of `main`. -/
def isLoaderEvent : Event → Bool
  | .w64 _ _ => true
  | .wstr _ _ => true
  | .wfile _ _ _ => true
  | .welf _ _ => true
  | .tcuReset _ => true
  | .enableTrace _ => true
  | .setFeatures _ _ _ _ => true
  | .setEp _ _ _ => true
  | .start _ => true
  | _ => false

/-- Every event of the trace is a loader event. -/
def LoaderTrace {α : Type} (r : Res α) : Prop := ∀ e ∈ r.1, isLoaderEvent e = true

theorem loaderTrace_bindR {α β : Type} (x : Res α) (f : α → Res β)
    (hx : LoaderTrace x) (hf : ∀ a, LoaderTrace (f a)) : LoaderTrace (bindR x f) := by
  cases x with
  | mk evs res =>
    cases res with
    | error e => exact hx
    | ok a =>
      intro e he
      rcases List.mem_append.mp (by simpa [bindR] using he) with h | h
      · exact hx e h
      · exact hf a e h

theorem loaderTrace_emit (e : Event) (h : isLoaderEvent e = true) :
    LoaderTrace (emit e) := by
  intro x hx
  simp only [emit, List.mem_singleton] at hx
  subst hx
  exact h

theorem loaderTrace_retR {α : Type} (a : α) : LoaderTrace (retR a) := by
  intro e he
  simp [retR] at he

theorem loaderTrace_abortR {α : Type} (msg : String) :
    LoaderTrace (abortR (α := α) msg) := by
  intro e he
  simp [abortR] at he

theorem loaderTrace_write_u64 (addr v : Nat) : LoaderTrace (write_u64 addr v) :=
  loaderTrace_emit _ rfl

theorem loaderTrace_write_str (s : List Char) (addr : Nat) :
    LoaderTrace (write_str s addr) :=
  loaderTrace_emit _ rfl

theorem loaderTrace_write_file (env : Env) (f : List Char) (off : Nat) :
    LoaderTrace (write_file env f off) :=
  loaderTrace_emit _ rfl

theorem loaderTrace_add_mod (env : Env) (addr : Nat) (m : List Char) (off : Nat) :
    LoaderTrace (add_mod env addr m off) := by
  unfold add_mod
  cases hs : pySplit '=' m with
  | nil => exact loaderTrace_abortR _
  | cons a l =>
    cases l with
    | nil => exact loaderTrace_abortR _
    | cons b l2 =>
      cases l2 with
      | nil =>
        exact loaderTrace_bindR _ _ (loaderTrace_write_u64 _ _) fun _ =>
          loaderTrace_bindR _ _ (loaderTrace_write_u64 _ _) fun _ =>
          loaderTrace_bindR _ _ (loaderTrace_write_str _ _) fun _ =>
          loaderTrace_bindR _ _ (loaderTrace_write_file _ _ _) fun _ =>
          loaderTrace_retR _
      | cons c l3 => exact loaderTrace_abortR _

theorem loaderTrace_add_mods (env : Env) (mods : List (List Char)) :
    ∀ addr k, LoaderTrace (add_mods env mods addr k) := by
  induction mods with
  | nil => intro addr k; exact loaderTrace_retR _
  | cons m rest ih =>
    intro addr k
    exact loaderTrace_bindR _ _ (loaderTrace_add_mod env addr m k) fun sz => ih _ _

theorem loaderTrace_write_tile_descs (vm : Bool) (ps ntiles : Nat) :
    ∀ n x k, LoaderTrace (write_tile_descs vm ps ntiles n x k) := by
  intro n
  induction n with
  | zero => intro x k; exact loaderTrace_retR _
  | succ n ih =>
    intro x k
    exact loaderTrace_bindR _ _ (loaderTrace_write_u64 _ _) fun _ => ih _ _

theorem loaderTrace_load_boot_info (env : Env) (vm : Bool) (ps ntiles : Nat)
    (mods : List (List Char)) (mods_addr : Nat) :
    LoaderTrace (load_boot_info env vm ps ntiles mods mods_addr) := by
  unfold load_boot_info
  exact loaderTrace_bindR _ _ (loaderTrace_write_u64 _ _) fun _ =>
    loaderTrace_bindR _ _ (loaderTrace_write_u64 _ _) fun _ =>
    loaderTrace_bindR _ _ (loaderTrace_write_u64 _ _) fun _ =>
    loaderTrace_bindR _ _ (loaderTrace_write_u64 _ _) fun _ =>
    loaderTrace_bindR _ _ (loaderTrace_add_mods _ _ _ _) fun _ =>
    loaderTrace_bindR _ _ (loaderTrace_write_tile_descs _ _ _ _ _ _) fun _ =>
    loaderTrace_bindR _ _ (loaderTrace_write_u64 _ _) fun _ =>
    loaderTrace_bindR _ _ (loaderTrace_write_u64 _ _) fun _ =>
    loaderTrace_write_u64 _ _

theorem loaderTrace_emitAll (es : List Event) (h : ∀ e ∈ es, isLoaderEvent e = true) :
    LoaderTrace (emitAll es) := h

theorem loaderTrace_init_tile (vm : Bool) (ps : Nat) (dn : Nat × Nat)
    (i : Nat) (loaded : Bool) : LoaderTrace (init_tile vm ps dn i loaded) := by
  unfold init_tile
  refine loaderTrace_bindR _ _ (loaderTrace_emit _ rfl) fun _ =>
    loaderTrace_bindR _ _ (loaderTrace_emit _ rfl) fun _ =>
    loaderTrace_bindR _ _ (loaderTrace_emit _ rfl) fun _ =>
    loaderTrace_bindR _ _ (loaderTrace_emitAll _ ?_) fun _ => ?_
  · intro e he
    simp only [List.mem_map] at he
    obtain ⟨ep, _, rfl⟩ := he
    rfl
  · split
    · exact loaderTrace_emit _ rfl
    · exact loaderTrace_retR _

theorem loaderTrace_init_tiles (vm : Bool) (ps : Nat) (dn : Nat × Nat) (nk : Nat) :
    ∀ ts i, LoaderTrace (init_tiles vm ps dn nk ts i) := by
  intro ts
  induction ts with
  | nil => intro i; exact loaderTrace_retR _
  | cons t rest ih =>
    intro i
    exact loaderTrace_bindR _ _ (loaderTrace_init_tile _ _ _ _ _) fun _ => ih _

theorem loaderTrace_write_args_loop (args : List (List Char)) :
    ∀ idx argv c mb, LoaderTrace (write_args_loop args idx argv c mb) := by
  induction args with
  | nil => intro idx argv c mb; exact loaderTrace_retR _
  | cons a rest ih =>
    intro idx argv c mb
    refine loaderTrace_bindR _ _ (loaderTrace_write_u64 _ _) fun _ =>
      loaderTrace_bindR _ _ (loaderTrace_write_str _ _) fun _ => ?_
    dsimp only
    split
    · exact loaderTrace_abortR _
    · exact ih _ _ _ _

theorem loaderTrace_write_args (args : List (List Char)) (argv mb : Nat) :
    LoaderTrace (write_args args argv mb) := by
  unfold write_args
  exact loaderTrace_bindR _ _ (loaderTrace_write_args_loop _ _ _ _ _) fun _ =>
    loaderTrace_bindR _ _ (loaderTrace_write_u64 _ _) fun _ => loaderTrace_retR _

theorem loaderTrace_write_tile_ids (dram_env : Nat) :
    ∀ ts off, LoaderTrace (write_tile_ids dram_env ts off) := by
  intro ts
  induction ts with
  | nil => intro off; exact loaderTrace_retR _
  | cons t rest ih =>
    intro off
    exact loaderTrace_bindR _ _ (loaderTrace_write_u64 _ _) fun _ => ih _

theorem loaderTrace_load_prog (env : Env) (vm : Bool) (ps : Nat) (tiles : List Tile)
    (dn : Nat × Nat) (i : Nat) (args : List (List Char)) (lf : List Char) :
    LoaderTrace (load_prog env vm ps tiles dn i args lf) := by
  unfold load_prog
  split
  · cases args with
    | nil => exact loaderTrace_abortR _
    | cons a0 rest =>
      refine loaderTrace_bindR _ _ (loaderTrace_emit _ rfl) fun _ => ?_
      split
      · exact loaderTrace_abortR _
      · refine loaderTrace_bindR _ _ (loaderTrace_emit _ rfl) fun _ =>
          loaderTrace_bindR _ _ (loaderTrace_write_args _ _ _) fun _ =>
          loaderTrace_bindR _ _ ?_ fun _ =>
          loaderTrace_bindR _ _ (loaderTrace_write_u64 _ _) fun _ =>
          loaderTrace_bindR _ _ (loaderTrace_write_u64 _ _) fun _ =>
          loaderTrace_bindR _ _ (loaderTrace_write_u64 _ _) fun _ =>
          loaderTrace_bindR _ _ (loaderTrace_write_u64 _ _) fun _ =>
          loaderTrace_bindR _ _ (loaderTrace_write_u64 _ _) fun _ =>
          loaderTrace_bindR _ _ (loaderTrace_write_u64 _ _) fun _ =>
          loaderTrace_bindR _ _ (loaderTrace_write_u64 _ _) fun _ =>
          loaderTrace_bindR _ _ (loaderTrace_write_u64 _ _) fun _ =>
          loaderTrace_bindR _ _ (loaderTrace_write_u64 _ _) fun _ =>
          loaderTrace_bindR _ _ (loaderTrace_write_tile_ids _ _ _) fun _ =>
          loaderTrace_write_u64 _ _
        split
        · exact loaderTrace_bindR _ _ (loaderTrace_write_args _ _ _) fun _ =>
            loaderTrace_retR _
        · exact loaderTrace_retR _
  · exact loaderTrace_abortR _

theorem loaderTrace_load_progs (env : Env) (vm : Bool) (ps : Nat) (tiles : List Tile)
    (dn : Nat × Nat) (lf : List Char) :
    ∀ ks i, LoaderTrace (load_progs env vm ps tiles dn lf ks i) := by
  intro ks
  induction ks with
  | nil => intro i; exact loaderTrace_retR _
  | cons k rest ih =>
    intro i
    exact loaderTrace_bindR _ _ (loaderTrace_load_prog _ _ _ _ _ _ _ _) fun _ => ih _

theorem loaderTrace_init (env : Env) (vm : Bool) (ps : Nat) (tiles : List Tile)
    (dn : Nat × Nat) (kernels mods : List (List Char)) (lf : List Char) :
    LoaderTrace (Loader.init env vm ps tiles dn kernels mods lf) := by
  unfold Loader.init
  exact loaderTrace_bindR _ _ (loaderTrace_load_boot_info _ _ _ _ _ _) fun _ =>
    loaderTrace_bindR _ _ (loaderTrace_init_tiles _ _ _ _ _ _) fun _ =>
    loaderTrace_load_progs _ _ _ _ _ _ _ _

theorem init_tile_ok (vm : Bool) (ps : Nat) (dn : Nat × Nat) (i : Nat) (loaded : Bool) :
    (init_tile vm ps dn i loaded).2 = Except.ok () := by
  unfold init_tile
  split <;> rfl

theorem init_tiles_ok (vm : Bool) (ps : Nat) (dn : Nat × Nat) (nk : Nat) :
    ∀ ts i, (init_tiles vm ps dn nk ts i).2 = Except.ok () := by
  intro ts
  induction ts with
  | nil => intro i; rfl
  | cons t rest ih =>
    intro i
    unfold init_tiles
    cases hx : init_tile vm ps dn i (decide (i < nk)) with
    | mk evs res =>
      have : res = Except.ok () := by
        have := init_tile_ok vm ps dn i (decide (i < nk))
        rw [hx] at this
        exact this
      subst this
      simp only [bindR_ok]
      exact ih (i + 1)

/-- The first argument of a `--tile` option: `args[0]` after splitting on
spaces. -/
def first_arg (pargs : List Char) : List Char := (pySplit ' ' pargs).headD []

theorem load_prog_bad_entry (env : Env) (vm : Bool) (ps : Nat) (tiles : List Tile)
    (dn : Nat × Nat) (i : Nat) (args : List (List Char)) (lf : List Char)
    (hbad : env.elfEntry (args.headD []) ≠ 0x10003000) :
    ∃ m, (load_prog env vm ps tiles dn i args lf).2 = Except.error m := by
  unfold load_prog
  split
  · cases args with
    | nil => exact ⟨"IndexError", rfl⟩
    | cons a0 rest =>
      simp only [List.headD_cons] at hbad
      refine ⟨"error: entry is not 0x10003000", ?_⟩
      simp [bindR, emit, if_pos hbad, abortR]
  · exact ⟨"IndexError", rfl⟩

theorem load_progs_bad_entry (env : Env) (vm : Bool) (ps : Nat) (tiles : List Tile)
    (dn : Nat × Nat) (lf : List Char) :
    ∀ (ks : List (List Char)) (i : Nat),
      (∃ j hj, env.elfEntry (first_arg (ks.get ⟨j, hj⟩)) ≠ 0x10003000) →
      ∃ m, (load_progs env vm ps tiles dn lf ks i).2 = Except.error m := by
  intro ks
  induction ks with
  | nil =>
    intro i h
    obtain ⟨j, hj, _⟩ := h
    exact absurd hj (by simp)
  | cons k rest ih =>
    intro i h
    unfold load_progs
    cases hx : load_prog env vm ps tiles dn i (pySplit ' ' k) lf with
    | mk evs res =>
      cases res with
      | error m => exact ⟨m, by simp [bindR, hx]⟩
      | ok _ =>
        obtain ⟨j, hj, hbad⟩ := h
        cases j with
        | zero =>
          exfalso
          have := load_prog_bad_entry env vm ps tiles dn i (pySplit ' ' k) lf
            (by simpa [first_arg] using hbad)
          obtain ⟨m, hm⟩ := this
          rw [hx] at hm
          simp at hm
        | succ jj =>
          have hjj : jj < rest.length := by simpa using hj
          obtain ⟨m, hm⟩ := ih (i + 1) ⟨jj, hjj, by simpa using hbad⟩
          exact ⟨m, by simp [bindR, hx, hm]⟩

theorem loader_init_bad_entry (env : Env) (vm : Bool) (ps : Nat) (tiles : List Tile)
    (dn : Nat × Nat) (kernels mods : List (List Char)) (lf : List Char)
    (hbad : ∃ j hj, env.elfEntry
      (first_arg ((kernels.take tiles.length).get ⟨j, hj⟩)) ≠ 0x10003000) :
    ∃ m, (Loader.init env vm ps tiles dn kernels mods lf).2 = Except.error m := by
  unfold Loader.init
  cases hb : load_boot_info env vm ps tiles.length mods
      (init_mods_addr vm ps tiles kernels) with
  | mk evs res =>
    cases res with
    | error m => exact ⟨m, by simp [bindR, hb]⟩
    | ok _ =>
      cases hit : init_tiles vm ps dn (kernels.take tiles.length).length tiles 0 with
      | mk evs2 res2 =>
        have : res2 = Except.ok () := by
          have := init_tiles_ok vm ps dn (kernels.take tiles.length).length tiles 0
          rw [hit] at this
          exact this
        subst this
        obtain ⟨m, hm⟩ := load_progs_bad_entry env vm ps tiles dn lf
          (kernels.take tiles.length) 0 hbad
        refine ⟨m, ?_⟩
        dsimp only
        rw [hb]
        dsimp only [bindR_ok]
        rw [hit]
        dsimp only [bindR_ok]
        exact hm

theorem main_run_init_error (env : Env) (version : Nat) (tiles : List Tile)
    (dram_nocid : Nat × Nat) (ktiles mods : List (List Char)) (vm : Bool)
    (debug : Option Nat) (serial : Bool) (logflags : List Char) (timed_out : Bool)
    (faults : Nat → TileFaults) (E : List Event) (msg : String)
    (hver : ((List.range tiles.length).any fun i => env.tcuVersion i ≠ version) = false)
    (hinit : Loader.init env vm (if vm then 16 * 1024 * 1024 else 64 * 1024 * 1024)
        tiles dram_nocid ktiles mods logflags = (E, Except.error msg)) :
    main_run env version tiles dram_nocid ktiles mods vm debug serial logflags
        timed_out faults =
      ((List.range tiles.length).map .stop ++ [.arqEnable false] ++ E,
       Except.error msg) := by
  unfold main_run
  rw [hver]
  simp only [Bool.false_eq_true, if_false]
  rw [hinit]
  simp [bindR, emit, emitAll, List.append_assoc]

theorem main_run_ok (env : Env) (version : Nat) (tiles : List Tile)
    (dram_nocid : Nat × Nat) (ktiles mods : List (List Char)) (vm : Bool)
    (debug : Option Nat) (serial : Bool) (logflags : List Char) (timed_out : Bool)
    (faults : Nat → TileFaults) (E : List Event)
    (hver : ((List.range tiles.length).any fun i => env.tcuVersion i ≠ version) = false)
    (hinit : Loader.init env vm (if vm then 16 * 1024 * 1024 else 64 * 1024 * 1024)
        tiles dram_nocid ktiles mods logflags = (E, Except.ok ())) :
    main_run env version tiles dram_nocid ktiles mods vm debug serial logflags
        timed_out faults =
      ((List.range tiles.length).map .stop ++ [.arqEnable false] ++ E
        ++ [.arqEnable true]
        ++ start_tiles (match debug with | none => tiles.length | some d => d)
            tiles.length 0
        ++ (if debug ≠ none then [Event.writeReady] else [])
        ++ (if serial then [] else TCUTerm.init_events)
        ++ [.enterLoop, .arqEnable false]
        ++ teardown faults timed_out tiles.length,
       Except.ok ()) := by
  unfold main_run
  rw [hver]
  simp only [Bool.false_eq_true, if_false]
  rw [hinit]
  by_cases hd : debug ≠ none
  · by_cases hs : serial
    · simp [bindR, emit, emitAll, retR, Loader.start, hd, hs, List.append_assoc]
    · simp [bindR, emit, emitAll, retR, Loader.start, hd, hs, List.append_assoc]
  · by_cases hs : serial
    · simp [bindR, emit, emitAll, retR, Loader.start, hd, hs, List.append_assoc]
    · simp [bindR, emit, emitAll, retR, Loader.start, hd, hs, List.append_assoc]

theorem start_tiles_mem (dt : Nat) :
    ∀ n x e, e ∈ start_tiles dt n x → ∃ i, e = .rocketStart i := by
  intro n
  induction n with
  | zero => intro x e he; simp [start_tiles] at he
  | succ n ih =>
    intro x e he
    simp only [start_tiles, List.mem_append] at he
    rcases he with he | he
    · rcases Decidable.em (x ≠ dt) with h | h
      · rw [if_pos h] at he
        simp only [List.mem_singleton] at he
        exact ⟨x, he⟩
      · rw [if_neg h] at he
        simp at he
    · exact ih _ e he

theorem teardown_tile_mem (ft : TileFaults) (t : Bool) (i : Nat) (e : Event)
    (he : e ∈ teardown_tile ft t i) :
    e = .nocCounters i ∨ e = .flitCounters i ∨ (∃ b, e = .printLog i b) ∨
    e = .tcuReset i ∨ (∃ b, e = .printTrace i b) ∨ e = .stop i := by
  revert he
  unfold teardown_tile
  split_ifs <;> intro he <;>
    simp only [List.mem_append, List.mem_cons, List.mem_singleton,
      List.not_mem_nil, List.nil_append, List.append_nil, or_false,
      false_or] at he <;>
    aesop

theorem teardown_mem (f : Nat → TileFaults) (t : Bool) (n : Nat) (e : Event)
    (he : e ∈ teardown f t n) :
    ∃ i, e = .nocCounters i ∨ e = .flitCounters i ∨ (∃ b, e = .printLog i b) ∨
      e = .tcuReset i ∨ (∃ b, e = .printTrace i b) ∨ e = .stop i := by
  simp only [teardown, List.mem_flatMap, List.mem_range] at he
  obtain ⟨i, _, hmem⟩ := he
  exact ⟨i, teardown_tile_mem (f i) t i e hmem⟩

/-- C4 (amended): if any kernel tile's executable has an ELF entry other
than `0x10003000`, the loader aborts the entire run fatally during
`Loader.init` (a `sys.exit`), and no execution-start (`rocket_start`, the
interrupt-0 kick of `Loader.start`) has been issued for any tile — but the
failing tile's clock-start (`pm.start()`) has already been issued before
the check (see the counterexample to the claim as stated). -/
theorem c4_entry_mismatch (env : Env) (version : Nat) (tiles : List Tile)
    (dram_nocid : Nat × Nat) (ktiles mods : List (List Char)) (vm : Bool)
    (debug : Option Nat) (serial : Bool) (logflags : List Char) (timed_out : Bool)
    (faults : Nat → TileFaults)
    (hver : ((List.range tiles.length).any fun i => env.tcuVersion i ≠ version) = false)
    (hbad : ∃ j hj, env.elfEntry
      (first_arg ((ktiles.take tiles.length).get ⟨j, hj⟩)) ≠ 0x10003000) :
    (∃ msg, (main_run env version tiles dram_nocid ktiles mods vm debug serial
        logflags timed_out faults).2 = Except.error msg) ∧
    ∀ i, Event.rocketStart i ∉ (main_run env version tiles dram_nocid ktiles mods
        vm debug serial logflags timed_out faults).1 := by
  obtain ⟨msg, hmsg⟩ := loader_init_bad_entry env vm
    (if vm then 16 * 1024 * 1024 else 64 * 1024 * 1024) tiles dram_nocid
    ktiles mods logflags hbad
  cases hL : Loader.init env vm (if vm then 16 * 1024 * 1024 else 64 * 1024 * 1024)
      tiles dram_nocid ktiles mods logflags with
  | mk E res =>
    have hres : res = Except.error msg := by rw [hL] at hmsg; exact hmsg
    subst hres
    have hmain := main_run_init_error env version tiles dram_nocid ktiles mods vm
      debug serial logflags timed_out faults E msg hver hL
    rw [hmain]
    refine ⟨⟨msg, rfl⟩, fun i hmem => ?_⟩
    simp only [List.append_assoc, List.mem_append, List.mem_map,
      List.mem_singleton] at hmem
    rcases hmem with ⟨x, _, hx⟩ | hx | hx
    · exact absurd hx (by simp)
    · exact absurd hx (by simp)
    · have hcl := loaderTrace_init env vm
        (if vm then 16 * 1024 * 1024 else 64 * 1024 * 1024) tiles dram_nocid
        ktiles mods logflags
      rw [hL] at hcl
      have := hcl _ hx
      simp [isLoaderEvent] at this

theorem c4_entry_mismatch_witness :
    ∃ msg, (main_run (⟨fun _ => 0, fun _ => [], fun _ => 0, fun _ => 0⟩ : Env) 0
        [⟨(0, 0)⟩] (0, 8) [[ 'k' ]] [] false none true [] false
        (fun _ => ⟨false, false, false, false, false, false⟩)).2 =
      Except.error msg :=
  (c4_entry_mismatch (⟨fun _ => 0, fun _ => [], fun _ => 0, fun _ => 0⟩ : Env) 0
    [⟨(0, 0)⟩] (0, 8) [[ 'k' ]] [] false none true [] false
    (fun _ => ⟨false, false, false, false, false, false⟩)
    (by decide) ⟨0, by decide, by decide⟩).1

/-- C4 counterexample: with one tile whose kernel has a wrong entry point,
the run aborts — but the trace already contains the tile's `start()` call
(the clock-start issued at the top of `_load_prog`, before the entry
check), contradicting the claim that no tile `start()` call occurs before
the abort. -/
theorem c4_counterexample :
    Event.start 0 ∈ (main_run (⟨fun _ => 0, fun _ => [], fun _ => 0, fun _ => 0⟩ : Env) 0
        [⟨(0, 0)⟩] (0, 8) [[ 'k' ]] [] false none true [] false
        (fun _ => ⟨false, false, false, false, false, false⟩)).1 ∧
    (main_run (⟨fun _ => 0, fun _ => [], fun _ => 0, fun _ => 0⟩ : Env) 0
        [⟨(0, 0)⟩] (0, 8) [[ 'k' ]] [] false none true [] false
        (fun _ => ⟨false, false, false, false, false, false⟩)).2 =
      Except.error "error: entry is not 0x10003000" :=
  ⟨by decide, by rfl⟩

/-- C9 (amended): only when a debug tile index was given (`--debug`), once
bring-up completes (versions checked, tiles initialized, programs loaded,
tiles started), `main` writes the `.ready` marker, after all
execution-start calls and before entering the console/run loop; without
`--debug` no `.ready` marker is written (see the counterexample to the
claim as stated). -/
theorem c9_ready_marker (env : Env) (version : Nat) (tiles : List Tile)
    (dram_nocid : Nat × Nat) (ktiles mods : List (List Char)) (vm : Bool)
    (d : Nat) (serial : Bool) (logflags : List Char) (timed_out : Bool)
    (faults : Nat → TileFaults) (E : List Event)
    (hver : ((List.range tiles.length).any fun i => env.tcuVersion i ≠ version) = false)
    (hinit : Loader.init env vm (if vm then 16 * 1024 * 1024 else 64 * 1024 * 1024)
        tiles dram_nocid ktiles mods logflags = (E, Except.ok ())) :
    ∃ l1 l2,
      (main_run env version tiles dram_nocid ktiles mods vm (some d) serial
          logflags timed_out faults).1 = l1 ++ Event.writeReady :: l2 ∧
      Event.writeReady ∉ l1 ∧ Event.writeReady ∉ l2 ∧
      Event.enterLoop ∉ l1 ∧ Event.enterLoop ∈ l2 ∧
      (∀ i, Event.rocketStart i ∉ l2) := by
  have hmain := main_run_ok env version tiles dram_nocid ktiles mods vm (some d)
    serial logflags timed_out faults E hver hinit
  have hE : ∀ e ∈ E, isLoaderEvent e = true := by
    have hcl := loaderTrace_init env vm
      (if vm then 16 * 1024 * 1024 else 64 * 1024 * 1024) tiles dram_nocid
      ktiles mods logflags
    rw [hinit] at hcl
    exact hcl
  refine ⟨(List.range tiles.length).map .stop ++ [.arqEnable false] ++ E
      ++ [.arqEnable true] ++ start_tiles d tiles.length 0,
    (if serial then [] else TCUTerm.init_events)
      ++ [.enterLoop, .arqEnable false] ++ teardown faults timed_out tiles.length,
    ?_, ?_, ?_, ?_, ?_, ?_⟩
  · rw [hmain]
    simp [List.append_assoc]
  · intro hmem
    simp only [List.append_assoc, List.mem_append, List.mem_map,
      List.mem_singleton] at hmem
    rcases hmem with ⟨x, _, hx⟩ | hx | hx | hx | hx
    · exact absurd hx (by simp)
    · exact absurd hx (by simp)
    · have := hE _ hx
      simp [isLoaderEvent] at this
    · exact absurd hx (by simp)
    · obtain ⟨i, hi⟩ := start_tiles_mem d tiles.length 0 _ hx
      simp at hi
  · intro hmem
    simp only [List.append_assoc, List.mem_append] at hmem
    rcases hmem with hx | hx | hx
    · revert hx
      split <;> simp [TCUTerm.init_events]
    · simp at hx
    · obtain ⟨i, hi⟩ := teardown_mem faults timed_out tiles.length _ hx
      rcases hi with h | h | ⟨b, h⟩ | h | ⟨b, h⟩ | h <;> simp at h
  · intro hmem
    simp only [List.append_assoc, List.mem_append, List.mem_map,
      List.mem_singleton] at hmem
    rcases hmem with ⟨x, _, hx⟩ | hx | hx | hx | hx
    · exact absurd hx (by simp)
    · exact absurd hx (by simp)
    · have := hE _ hx
      simp [isLoaderEvent] at this
    · exact absurd hx (by simp)
    · obtain ⟨i, hi⟩ := start_tiles_mem d tiles.length 0 _ hx
      simp at hi
  · simp
  · intro i hmem
    simp only [List.append_assoc, List.mem_append] at hmem
    rcases hmem with hx | hx | hx
    · revert hx
      split <;> simp [TCUTerm.init_events]
    · simp at hx
    · obtain ⟨j, hj⟩ := teardown_mem faults timed_out tiles.length _ hx
      rcases hj with h | h | ⟨b, h⟩ | h | ⟨b, h⟩ | h <;> simp at h

theorem c9_ready_marker_witness :
    ∃ l1 l2,
      (main_run (⟨fun _ => 0, fun _ => [], fun _ => 0x10003000, fun _ => 0⟩ : Env) 0
          [⟨(0, 0)⟩] (0, 8) [[ 'k' ]] [] false (some 5) true [] false
          (fun _ => ⟨false, false, false, false, false, false⟩)).1 =
        l1 ++ Event.writeReady :: l2 ∧
      Event.writeReady ∉ l1 ∧ Event.writeReady ∉ l2 ∧
      Event.enterLoop ∉ l1 ∧ Event.enterLoop ∈ l2 ∧
      (∀ i, Event.rocketStart i ∉ l2) :=
  c9_ready_marker (⟨fun _ => 0, fun _ => [], fun _ => 0x10003000, fun _ => 0⟩ : Env) 0
    [⟨(0, 0)⟩] (0, 8) [[ 'k' ]] [] false 5 true [] false
    (fun _ => ⟨false, false, false, false, false, false⟩)
    (Loader.init (⟨fun _ => 0, fun _ => [], fun _ => 0x10003000, fun _ => 0⟩ : Env)
      false (if false then 16 * 1024 * 1024 else 64 * 1024 * 1024) [⟨(0, 0)⟩] (0, 8)
      [[ 'k' ]] [] []).1
    (by decide) (by rfl)

/-- C9 counterexample: an invocation without `--debug` completes bring-up
(the execution-start event and the run loop both appear in the trace and
the run finishes cleanly) but never writes the `.ready` marker,
contradicting "on every invocation". -/
theorem c9_counterexample :
    Event.writeReady ∉ (main_run (⟨fun _ => 0, fun _ => [],
        fun _ => 0x10003000, fun _ => 0⟩ : Env) 0
        [⟨(0, 0)⟩] (0, 8) [[ 'k' ]] [] false none true [] false
        (fun _ => ⟨false, false, false, false, false, false⟩)).1 ∧
    Event.rocketStart 0 ∈ (main_run (⟨fun _ => 0, fun _ => [],
        fun _ => 0x10003000, fun _ => 0⟩ : Env) 0
        [⟨(0, 0)⟩] (0, 8) [[ 'k' ]] [] false none true [] false
        (fun _ => ⟨false, false, false, false, false, false⟩)).1 ∧
    Event.enterLoop ∈ (main_run (⟨fun _ => 0, fun _ => [],
        fun _ => 0x10003000, fun _ => 0⟩ : Env) 0
        [⟨(0, 0)⟩] (0, 8) [[ 'k' ]] [] false none true [] false
        (fun _ => ⟨false, false, false, false, false, false⟩)).1 ∧
    (main_run (⟨fun _ => 0, fun _ => [], fun _ => 0x10003000, fun _ => 0⟩ : Env) 0
        [⟨(0, 0)⟩] (0, 8) [[ 'k' ]] [] false none true [] false
        (fun _ => ⟨false, false, false, false, false, false⟩)).2 = Except.ok () :=
  ⟨by decide, by decide, by decide, by rfl⟩
